import Mathlib

/-!
Shallow embedding of the staccato statistics library
(file src/staccato/lib.rs of the repository).

Modelling conventions:
  - f64 values are modelled as exact rationals.  Sums, means, medians,
    minima and maxima of rationals are exact, mirroring the structure of
    the IEEE-754 computation of the source.
  - the f64 square root used for the standard deviation is irrational
    valued, so the stddev field of the Statistics structure lives in the
    reals and is defined through Real.sqrt; every other field is rational
    and computable.
  - the sentinels std::f64::MAX and std::f64::MIN used by the running
    min/max scan are the exact rational values of those f64 constants.
  - the reader handed to get_values is modelled by the result of its
    read_to_string call: either an I/O error or the full input string.
-/

namespace Staccato

/-- The DISPLAY_PRECISION constant of the source: all float fields are
rendered with five fractional digits. -/
def DISPLAY_PRECISION : ℕ := 5

/-- Exact rational value of std::f64::MAX, the sentinel the source uses to
initialise the running minimum.  The literal equals (2^53 - 1) * 2^971, as
the lemma F64_MAX_eq_pow below certifies; the explicit literal keeps
kernel reduction of comparisons against the sentinel cheap. -/
def F64_MAX : ℚ := 179769313486231570814527423731704356798070567525844996598917476803157260780028538760589558632766878171540458953514382464234321326889464182768467546703537516986049910576551282076245490090389328944075868508455133942304583236903222948165808559332123348274797826204144723168738177180919299881250404026184124858368

/-- Exact rational value of std::f64::MIN (equal to -f64::MAX), the
sentinel the source uses to initialise the running maximum. -/
def F64_MIN : ℚ := -F64_MAX

/-- The F64_MAX literal is exactly (2^53 - 1) * 2^971, the value of
std::f64::MAX. -/
theorem F64_MAX_eq_pow : F64_MAX = (2 ^ 53 - 1) * 2 ^ 971 := by
  norm_num [F64_MAX]

/-- The SortingPolicy enum of the source. -/
inductive SortingPolicy
  | Sorted
  | Unsorted
deriving DecidableEq

/-- Numeric value of a list of ASCII digit characters, most significant
first. -/
def digitsVal (l : List Char) : ℕ :=
  l.foldl (fun a c => 10 * a + (c.toNat - 48)) 0

/-- Parse the mantissa part of a float literal: digits, optionally with a
single decimal point, at least one digit in total.  Mirrors the grammar of
Rust f64 parsing for finite decimal literals (no surrounding whitespace is
accepted). -/
def parseMantissa (l : List Char) : Option ℚ :=
  let ip := l.takeWhile (fun c => !(c == '.'))
  let rest := l.dropWhile (fun c => !(c == '.'))
  match rest with
  | [] =>
    if ip ≠ [] ∧ ip.all Char.isDigit then some ((digitsVal ip : ℚ)) else none
  | _ :: fp =>
    if fp.contains '.' then none
    else if (ip ≠ [] ∨ fp ≠ []) ∧ ip.all Char.isDigit ∧ fp.all Char.isDigit then
      some ((digitsVal ip : ℚ) + (digitsVal fp : ℚ) / (10 : ℚ) ^ fp.length)
    else none

/-- Parse the exponent part of a float literal (after the letter e): an
optional sign followed by at least one digit. -/
def parseExpPart (l : List Char) : Option ℤ :=
  let sign : ℤ := match l with
    | '-' :: _ => -1
    | _ => 1
  let d := match l with
    | '+' :: t => t
    | '-' :: t => t
    | _ => l
  if d ≠ [] ∧ d.all Char.isDigit then some (sign * (digitsVal d : ℤ)) else none

/-- Model of Rust str::parse::<f64>() restricted to finite decimal
literals: an optional sign, a mantissa, and an optional exponent, with no
surrounding whitespace.  The non-finite literals inf and nan, and literals
whose magnitude overflows f64, fall outside the rational embedding and are
not modelled. -/
def rustParseF64 (s : String) : Option ℚ :=
  let l := s.data
  let sign : ℚ := match l with
    | '-' :: _ => -1
    | _ => 1
  let l2 := match l with
    | '+' :: t => t
    | '-' :: t => t
    | _ => l
  let mant := l2.takeWhile (fun c => !(c == 'e' || c == 'E'))
  let rest := l2.dropWhile (fun c => !(c == 'e' || c == 'E'))
  match parseMantissa mant with
  | none => none
  | some m =>
    match rest with
    | [] => some (sign * m)
    | _ :: et =>
      match parseExpPart et with
      | none => none
      | some e => some (sign * m * (10 : ℚ) ^ e)

/-- Model of Rust str::lines(): split on the newline character, drop a
final empty segment produced by a trailing newline, and strip one trailing
carriage return from each line. -/
def rustLines (s : String) : List String :=
  let parts := s.splitOn ("\n")
  let parts := if parts.getLast? = some ("") then parts.dropLast else parts
  parts.map (fun t => if t.endsWith ("\r") then t.dropRight 1 else t)

/-- Model of the sort_by call of get_values: a stable ascending sort.  On
rationals the comparator a.partial_cmp(b).unwrap_or(Less) coincides with
the total order. -/
def sortFloats (l : List ℚ) : List ℚ :=
  l.mergeSort (fun a b => decide (a ≤ b))

/-- The get_values function of the source.  The reader argument is
modelled by the outcome of its read_to_string call: Except.error when the
underlying I/O read fails, Except.ok with the whole input text otherwise.
Each line is run through the f64 parser; lines that fail to parse are
dropped by filterMap, and the values are sorted when the policy asks for
it. -/
def get_values (input : Except String String) (sort : SortingPolicy) :
    Except String (List ℚ) :=
  match input with
  | .error e => .error e
  | .ok buf =>
    let values := (rustLines buf).filterMap rustParseF64
    .ok (match sort with
      | .Sorted => sortFloats values
      | .Unsorted => values)

/-- Modelled from the spec: the variant of get_values the specification
describes, in which each line has its leading and trailing whitespace
trimmed before being parsed.  The source itself performs no trimming; this
definition exists only to be compared with get_values. -/
def get_values_trimmed (input : Except String String) (sort : SortingPolicy) :
    Except String (List ℚ) :=
  match input with
  | .error e => .error e
  | .ok buf =>
    let values := (rustLines buf).filterMap (fun v => rustParseF64 v.trim)
    .ok (match sort with
      | .Sorted => sortFloats values
      | .Unsorted => values)

/-- The Statistics struct of the source, fields in source order.  All
fields are exact rationals except stddev, which is a real because the f64
square root is modelled by Real.sqrt. -/
structure Statistics where
  percentile : Option ℕ
  count : ℕ
  sum : ℚ
  mean : ℚ
  upper : ℚ
  lower : ℚ
  median : ℚ
  stddev : ℝ

/-- The index computed by Statistics::slice_values:
(percentile as usize * num_vals) / 100 in integer arithmetic. -/
def sliceIndex (percentile num_vals : ℕ) : ℕ :=
  percentile * num_vals / 100

/-- Statistics::slice_values: the prefix of vals of length sliceIndex.
In the source this is the range slice &vals[0..index], which is in bounds
exactly when the index is at most the length. -/
def slice_values (vals : List ℚ) (percentile : ℕ) : List ℚ :=
  vals.take (sliceIndex percentile vals.length)

/-- Statistics::compute_median, translated directly: middle element for an
odd length, mean of the two elements around the midpoint for an even
length.  The panicking index operations of the source are modelled by the
default-returning getElem!, which the callers never reach out of bounds. -/
def compute_median (vals : List ℚ) : ℚ :=
  let len := vals.length
  if len % 2 = 1 then
    let mid := len / 2
    vals[mid]!
  else
    let upper_med := len / 2
    let lower_med := upper_med - 1
    (vals[upper_med]! + vals[lower_med]!) / 2

/-- One step of the min/max/sum scan of Statistics::compute_min_max_sum.
The accumulator is (upper, lower, sum), matching the three mutable locals
of the source. -/
def mmsStep (acc : ℚ × ℚ × ℚ) (val : ℚ) : ℚ × ℚ × ℚ :=
  (if acc.1 < val then val else acc.1,
   if val < acc.2.1 then val else acc.2.1,
   acc.2.2 + val)

/-- Statistics::compute_min_max_sum: one linear scan starting from the
sentinels f64::MIN (for the maximum) and f64::MAX (for the minimum), with
the sum accumulated alongside.  Returns (lower, upper, sum) in the order
of the source. -/
def compute_min_max_sum (vals : List ℚ) : ℚ × ℚ × ℚ :=
  let r := vals.foldl mmsStep (F64_MIN, F64_MAX, 0)
  (r.2.1, r.1, r.2.2)

/-- Statistics::compute_stddev: the fold accumulating the squared
deviations from the given mean, divided by the length, then the square
root.  The square root of the f64 computation is modelled by Real.sqrt. -/
noncomputable def compute_stddev (vals : List ℚ) (mean : ℚ) : ℝ :=
  let num : ℚ := (vals.length : ℚ)
  let sum_deviance : ℚ := vals.foldl (fun sum x => sum + (x - mean) ^ 2) 0
  let deviance : ℚ := sum_deviance / num
  Real.sqrt ((deviance : ℝ))

/-- The filtered binding at the top of Statistics::from: the percentile
slice when a percentile is given, the whole slice otherwise. -/
def filteredOf (vals : List ℚ) (percentile : Option ℕ) : List ℚ :=
  match percentile with
  | some v => slice_values vals v
  | none => vals

/-- Statistics::from of the source (from is a Lean keyword, hence the
name fromValues): bail out with none when the filtered slice is empty,
otherwise build the snapshot from the single min/max/sum scan, the median
and the standard deviation. -/
noncomputable def Statistics.fromValues (vals : List ℚ) (percentile : Option ℕ) :
    Option Statistics :=
  let filtered := filteredOf vals percentile
  let count := filtered.length
  if count = 0 then none
  else
    let mms := compute_min_max_sum filtered
    let lower := mms.1
    let upper := mms.2.1
    let sum := mms.2.2
    let mean := sum / (count : ℚ)
    let median := compute_median filtered
    let stddev := compute_stddev filtered mean
    some ⟨percentile, count, sum, mean, upper, lower, median, stddev⟩

/-- The StatisticsBundle struct of the source: one global Statistics and
the list of percentile-scoped ones. -/
structure StatisticsBundle where
  global : Statistics
  percentiles : List Statistics

/-- StatisticsBundle::with_percentiles: none for an empty series;
otherwise the global statistics plus, in caller order, the statistics of
each percentile slice that turned out non-empty (the flat_map over Option
of the source is filterMap). -/
noncomputable def StatisticsBundle.with_percentiles (vals : List ℚ)
    (percentiles : List ℕ) : Option StatisticsBundle :=
  if vals.length = 0 then none
  else
    let percentile_stats :=
      percentiles.filterMap (fun p => Statistics.fromValues vals (some p))
    (Statistics.fromValues vals none).map
      (fun global => ⟨global, percentile_stats⟩)

/-- StatisticsBundle::from: with_percentiles with no percentiles. -/
noncomputable def StatisticsBundle.fromValues (vals : List ℚ) :
    Option StatisticsBundle :=
  StatisticsBundle.with_percentiles vals []

/-! ### Helper lemmas about the slicing index -/

theorem sliceIndex_le (p n : ℕ) (hp : p ≤ 99) : sliceIndex p n ≤ n := by
  have h1 : p * n ≤ 100 * n := Nat.mul_le_mul_right n (le_trans hp (by norm_num))
  calc sliceIndex p n = p * n / 100 := rfl
    _ ≤ 100 * n / 100 := Nat.div_le_div_right h1
    _ = n := Nat.mul_div_cancel_left n (by norm_num)

theorem slice_values_eq_take (vals : List ℚ) (p : ℕ) :
    slice_values vals p = vals.take (sliceIndex p vals.length) := rfl

theorem slice_values_length (vals : List ℚ) (p : ℕ) (hp : p ≤ 99) :
    (slice_values vals p).length = sliceIndex p vals.length := by
  simp only [slice_values, List.length_take]
  exact Nat.min_eq_left (sliceIndex_le p vals.length hp)

/-! ### Helper lemmas about the min/max/sum scan -/

theorem mms_foldl_sum (l : List ℚ) (acc : ℚ × ℚ × ℚ) :
    (l.foldl mmsStep acc).2.2 = acc.2.2 + l.sum := by
  induction l generalizing acc with
  | nil => simp
  | cons y t ih =>
    simp only [List.foldl_cons, List.sum_cons, ih, mmsStep, ← add_assoc]

theorem mms_foldl_fst_le (l : List ℚ) (acc : ℚ × ℚ × ℚ) :
    acc.1 ≤ (l.foldl mmsStep acc).1 := by
  induction l generalizing acc with
  | nil => simp
  | cons y t ih =>
    refine le_trans ?_ (ih (mmsStep acc y))
    simp only [mmsStep]
    split
    · exact le_of_lt (by assumption)
    · exact le_rfl

theorem mem_le_mms_foldl_fst (l : List ℚ) (acc : ℚ × ℚ × ℚ) (x : ℚ)
    (hx : x ∈ l) : x ≤ (l.foldl mmsStep acc).1 := by
  induction l generalizing acc with
  | nil => cases hx
  | cons y t ih =>
    rcases List.mem_cons.mp hx with h | h
    · subst h
      refine le_trans ?_ (mms_foldl_fst_le t (mmsStep acc x))
      simp only [mmsStep]
      split
      · exact le_rfl
      · exact le_of_not_lt (by assumption)
    · exact ih (mmsStep acc y) h

theorem mms_foldl_lower_le (l : List ℚ) (acc : ℚ × ℚ × ℚ) :
    (l.foldl mmsStep acc).2.1 ≤ acc.2.1 := by
  induction l generalizing acc with
  | nil => simp
  | cons y t ih =>
    refine le_trans (ih (mmsStep acc y)) ?_
    simp only [mmsStep]
    split
    · exact le_of_lt (by assumption)
    · exact le_rfl

theorem mms_foldl_lower_le_mem (l : List ℚ) (acc : ℚ × ℚ × ℚ) (x : ℚ)
    (hx : x ∈ l) : (l.foldl mmsStep acc).2.1 ≤ x := by
  induction l generalizing acc with
  | nil => cases hx
  | cons y t ih =>
    rcases List.mem_cons.mp hx with h | h
    · subst h
      refine le_trans (mms_foldl_lower_le t (mmsStep acc x)) ?_
      simp only [mmsStep]
      split
      · exact le_rfl
      · exact le_of_not_lt (by assumption)
    · exact ih (mmsStep acc y) h

/-- The sum component of the scan is the exact sum of the list. -/
theorem compute_min_max_sum_sum (vals : List ℚ) :
    (compute_min_max_sum vals).2.2 = vals.sum := by
  simpa [compute_min_max_sum] using mms_foldl_sum vals (F64_MIN, F64_MAX, 0)

/-- Every element of the list is at least the lower component of the scan. -/
theorem compute_min_max_sum_lower_le (vals : List ℚ) (x : ℚ) (hx : x ∈ vals) :
    (compute_min_max_sum vals).1 ≤ x := by
  simpa [compute_min_max_sum] using
    mms_foldl_lower_le_mem vals (F64_MIN, F64_MAX, 0) x hx

/-- Every element of the list is at most the upper component of the scan. -/
theorem compute_min_max_sum_le_upper (vals : List ℚ) (x : ℚ) (hx : x ∈ vals) :
    x ≤ (compute_min_max_sum vals).2.1 := by
  simpa [compute_min_max_sum] using
    mem_le_mms_foldl_fst vals (F64_MIN, F64_MAX, 0) x hx

/-! ### Helper lemmas about the median -/

theorem compute_median_odd (vals : List ℚ) (h : vals.length % 2 = 1)
    (hm : vals.length / 2 < vals.length) :
    compute_median vals = vals.get ⟨vals.length / 2, hm⟩ := by
  simp only [compute_median, if_pos h]
  rw [getElem!_pos vals _ hm]
  simp

theorem compute_median_even (vals : List ℚ) (h : vals.length % 2 = 0)
    (h1 : vals.length / 2 < vals.length)
    (h2 : vals.length / 2 - 1 < vals.length) :
    compute_median vals =
      (vals.get ⟨vals.length / 2, h1⟩ + vals.get ⟨vals.length / 2 - 1, h2⟩) / 2 := by
  have hodd : ¬ vals.length % 2 = 1 := by omega
  simp only [compute_median, if_neg hodd]
  rw [getElem!_pos vals _ h1, getElem!_pos vals _ h2]
  simp

/-! ### Helper lemmas about the deviance fold -/

theorem foldl_add_map (f : ℚ → ℚ) (l : List ℚ) (a : ℚ) :
    l.foldl (fun s x => s + f x) a = a + (l.map f).sum := by
  induction l generalizing a with
  | nil => simp
  | cons y t ih =>
    simp only [List.foldl_cons, List.map_cons, List.sum_cons, ih, ← add_assoc]

/-- The standard deviation unfolded to the square root of the mean of the
squared deviations. -/
theorem compute_stddev_eq (vals : List ℚ) (mean : ℚ) :
    compute_stddev vals mean =
      Real.sqrt ((((vals.map (fun x => (x - mean) ^ 2)).sum /
        (vals.length : ℚ) : ℚ) : ℝ)) := by
  simp only [compute_stddev, foldl_add_map, zero_add]

/-! ### Characterisation of Statistics.fromValues -/

theorem fromValues_eq_none (vals : List ℚ) (pt : Option ℕ)
    (h : filteredOf vals pt = []) : Statistics.fromValues vals pt = none := by
  simp [Statistics.fromValues, h]

theorem fromValues_eq_some (vals : List ℚ) (pt : Option ℕ)
    (h : filteredOf vals pt ≠ []) :
    Statistics.fromValues vals pt =
      some { percentile := pt
             count := (filteredOf vals pt).length
             sum := (compute_min_max_sum (filteredOf vals pt)).2.2
             mean := (compute_min_max_sum (filteredOf vals pt)).2.2 /
               ((filteredOf vals pt).length : ℚ)
             upper := (compute_min_max_sum (filteredOf vals pt)).2.1
             lower := (compute_min_max_sum (filteredOf vals pt)).1
             median := compute_median (filteredOf vals pt)
             stddev := compute_stddev (filteredOf vals pt)
               ((compute_min_max_sum (filteredOf vals pt)).2.2 /
                 ((filteredOf vals pt).length : ℚ)) } := by
  have hlen : (filteredOf vals pt).length ≠ 0 := by
    simpa [List.length_eq_zero] using h
  simp only [Statistics.fromValues]
  rw [if_neg hlen]

theorem fromValues_eq_none_iff (vals : List ℚ) (pt : Option ℕ) :
    Statistics.fromValues vals pt = none ↔ filteredOf vals pt = [] := by
  constructor
  · intro h
    by_contra hne
    rw [fromValues_eq_some vals pt hne] at h
    cases h
  · exact fromValues_eq_none vals pt

/-- The median of a non-empty list lies between the lower and upper
components of the min/max/sum scan of that list. -/
theorem compute_median_bounds (vals : List ℚ) (h : vals ≠ []) :
    (compute_min_max_sum vals).1 ≤ compute_median vals ∧
    compute_median vals ≤ (compute_min_max_sum vals).2.1 := by
  have hlen : vals.length ≠ 0 := by simpa [List.length_eq_zero] using h
  rcases Nat.even_or_odd vals.length with he | ho
  · have h2 : vals.length % 2 = 0 := Nat.even_iff.mp he
    have hge2 : 2 ≤ vals.length := by omega
    have h1 : vals.length / 2 < vals.length :=
      Nat.div_lt_self (by omega) (by norm_num)
    have h2' : vals.length / 2 - 1 < vals.length :=
      lt_of_le_of_lt (Nat.sub_le _ 1) h1
    rw [compute_median_even vals h2 h1 h2']
    have ha1 := compute_min_max_sum_lower_le vals _ (List.get_mem vals _ h1)
    have ha2 := compute_min_max_sum_lower_le vals _ (List.get_mem vals _ h2')
    have hb1 := compute_min_max_sum_le_upper vals _ (List.get_mem vals _ h1)
    have hb2 := compute_min_max_sum_le_upper vals _ (List.get_mem vals _ h2')
    constructor <;> linarith
  · have h2 : vals.length % 2 = 1 := Nat.odd_iff.mp ho
    have h1 : vals.length / 2 < vals.length :=
      Nat.div_lt_self (by omega) (by norm_num)
    rw [compute_median_odd vals h2 h1]
    exact ⟨compute_min_max_sum_lower_le vals _ (List.get_mem vals _ h1),
      compute_min_max_sum_le_upper vals _ (List.get_mem vals _ h1)⟩

/-! ### The claims -/

/-- C1: on every sorted sequence and percentile P with 1 ≤ P ≤ 99,
Statistics::slice_values returns exactly the prefix of length
floor(P * N / 100), computed with integer arithmetic only; in particular
P = 50 on [1,2,5,7,9,12] yields the prefix [1,2,5] of length 3. -/
theorem claim_C1 (vals : List ℚ) (p : ℕ) (_hs : List.Sorted (· ≤ ·) vals)
    (_hp1 : 1 ≤ p) (hp2 : p ≤ 99) :
    slice_values vals p = vals.take (p * vals.length / 100) ∧
    (slice_values vals p).length = p * vals.length / 100 ∧
    slice_values [(1:ℚ), 2, 5, 7, 9, 12] 50 = [1, 2, 5] ∧
    (slice_values [(1:ℚ), 2, 5, 7, 9, 12] 50).length = 3 := by
  refine ⟨rfl, slice_values_length vals p hp2, rfl, rfl⟩

/-- Witness for C1 at the concrete input of the claim. -/
theorem claim_C1_witness :
    slice_values [(1:ℚ), 2, 5, 7, 9, 12] 50 = [1, 2, 5] :=
  (claim_C1 [(1:ℚ), 2, 5, 7, 9, 12] 50 (by norm_num [List.sorted_cons])
    (by norm_num) (by norm_num)).2.2.1

/-- C3: for every non-empty slice, the snapshot has count equal to the
length, sum equal to the exact sum of the elements, and mean equal to
sum divided by count. -/
theorem claim_C3 (vals : List ℚ) (h : vals ≠ []) :
    (Statistics.fromValues vals none).map Statistics.count = some vals.length ∧
    (Statistics.fromValues vals none).map Statistics.sum = some vals.sum ∧
    (Statistics.fromValues vals none).map Statistics.mean =
      some (vals.sum / (vals.length : ℚ)) := by
  have hf : filteredOf vals none = vals := rfl
  rw [fromValues_eq_some vals none (by simpa [hf] using h)]
  simp [hf, compute_min_max_sum_sum]

/-- Witness for C3 at the two-element list [2, 4]. -/
theorem claim_C3_witness :
    (Statistics.fromValues [(2:ℚ), 4] none).map Statistics.count = some 2 ∧
    (Statistics.fromValues [(2:ℚ), 4] none).map Statistics.sum = some 6 ∧
    (Statistics.fromValues [(2:ℚ), 4] none).map Statistics.mean = some 3 := by
  obtain ⟨h1, h2, h3⟩ := claim_C3 [(2:ℚ), 4] (by simp)
  refine ⟨by simpa using h1, ?_, ?_⟩
  · rw [h2]
    norm_num
  · rw [h3]
    norm_num

/-- C4: on a non-empty sorted slice the median is the single middle
element for an odd count, and the mean of the two elements adjacent to
the midpoint for an even count. -/
theorem claim_C4 (vals : List ℚ) (_hs : List.Sorted (· ≤ ·) vals)
    (_h : vals ≠ []) :
    (vals.length % 2 = 1 →
      ∀ (hm : vals.length / 2 < vals.length),
        compute_median vals = vals.get ⟨vals.length / 2, hm⟩) ∧
    (vals.length % 2 = 0 →
      ∀ (h1 : vals.length / 2 < vals.length)
        (h2 : vals.length / 2 - 1 < vals.length),
        compute_median vals =
          (vals.get ⟨vals.length / 2, h1⟩ +
            vals.get ⟨vals.length / 2 - 1, h2⟩) / 2) :=
  ⟨fun ho hm => compute_median_odd vals ho hm,
   fun he h1 h2 => compute_median_even vals he h1 h2⟩

/-- Witness for C4: odd count [1,2,3] and even count [1,2,3,4]. -/
theorem claim_C4_witness :
    compute_median [(1:ℚ), 2, 3] = 2 ∧
    compute_median [(1:ℚ), 2, 3, 4] = 5 / 2 := by
  constructor
  · have h := (claim_C4 [(1:ℚ), 2, 3] (by norm_num [List.sorted_cons])
      (by simp)).1 (by norm_num) (by norm_num)
    simpa using h
  · have h := (claim_C4 [(1:ℚ), 2, 3, 4] (by norm_num [List.sorted_cons])
      (by simp)).2 (by norm_num) (by norm_num) (by norm_num)
    norm_num at h
    exact h

/-- C5: the standard deviation is the square root of the mean of squared
deviations from the computed mean, that quantity is nonnegative (so the
f64 square root never produces NaN on a non-empty slice), and for a slice
of count 1 the standard deviation is exactly 0. -/
theorem claim_C5 (vals : List ℚ) (s : Statistics)
    (hs : Statistics.fromValues vals none = some s) :
    s.stddev = Real.sqrt ((((vals.map (fun x => (x - s.mean) ^ 2)).sum /
        (vals.length : ℚ) : ℚ) : ℝ)) ∧
    0 ≤ ((vals.map (fun x => (x - s.mean) ^ 2)).sum / (vals.length : ℚ)) ∧
    0 ≤ s.stddev ∧
    (vals.length = 1 → s.stddev = 0) := by
  have hne : vals ≠ [] := by
    intro he
    rw [fromValues_eq_none vals none (by simp [filteredOf, he])] at hs
    cases hs
  have hf : filteredOf vals none = vals := rfl
  rw [fromValues_eq_some vals none (by simpa [hf] using hne)] at hs
  injection hs with hs
  subst hs
  simp only [hf]
  refine ⟨compute_stddev_eq vals _, ?_, ?_, ?_⟩
  · apply div_nonneg
    · apply List.sum_nonneg
      intro x hx
      simp only [List.mem_map] at hx
      obtain ⟨y, _, rfl⟩ := hx
      positivity
    · positivity
  · exact Real.sqrt_nonneg _
  · intro h1
    obtain ⟨a, rfl⟩ := List.length_eq_one.mp h1
    rw [compute_stddev_eq]
    have hmean : (compute_min_max_sum [a]).2.2 / (([a] : List ℚ).length : ℚ) = a := by
      simp [compute_min_max_sum_sum]
    rw [hmean]
    simp

/-- Witness for C5 at the singleton slice [13]. -/
theorem claim_C5_witness :
    ((⟨none, 1, 13, 13, 13, 13, 13, compute_stddev [13] 13⟩ :
      Statistics)).stddev = 0 :=
  (claim_C5 [13] ⟨none, 1, 13, 13, 13, 13, 13, compute_stddev [13] 13⟩
    (by with_unfolding_all rfl)).2.2.2 rfl

/-- C6: Statistics::from returns none exactly when the slice it operates
on (the whole slice for no percentile, the percentile prefix otherwise)
is empty, and the bundle constructor returns none exactly when the series
is empty. -/
theorem claim_C6 :
    (∀ vals : List ℚ, Statistics.fromValues vals none = none ↔ vals = []) ∧
    (∀ (vals : List ℚ) (p : ℕ),
      Statistics.fromValues vals (some p) = none ↔ slice_values vals p = []) ∧
    (∀ (vals : List ℚ) (ps : List ℕ),
      StatisticsBundle.with_percentiles vals ps = none ↔ vals = []) := by
  refine ⟨?_, ?_, ?_⟩
  · intro vals
    simpa [filteredOf] using fromValues_eq_none_iff vals none
  · intro vals p
    simpa [filteredOf] using fromValues_eq_none_iff vals (some p)
  · intro vals ps
    constructor
    · intro h
      by_contra hne
      have hlen : ¬ vals.length = 0 := by
        simpa [List.length_eq_zero] using hne
      rw [StatisticsBundle.with_percentiles, if_neg hlen,
        fromValues_eq_some vals none
          (by simpa [filteredOf, List.length_eq_zero] using hne)] at h
      cases h
    · intro h
      subst h
      simp [StatisticsBundle.with_percentiles]

/-- Witness for C6 at the empty and a singleton series. -/
theorem claim_C6_witness :
    (Statistics.fromValues ([] : List ℚ) none = none ↔ ([] : List ℚ) = []) ∧
    (StatisticsBundle.with_percentiles [(7:ℚ)] [] = none ↔ [(7:ℚ)] = []) :=
  ⟨claim_C6.1 [], claim_C6.2.2 [(7:ℚ)] []⟩

/-- C7: for a non-empty series the bundle holds the global statistics
(percentile tag none, over the entire series) and, in exactly the caller
order with duplicates preserved, one statistics entry per requested
percentile whose slice is non-empty; a percentile whose computed slice
length is 0 contributes nothing. -/
theorem claim_C7 (vals : List ℚ) (ps : List ℕ) (h : vals ≠ []) :
    ∃ g, Statistics.fromValues vals none = some g ∧
      StatisticsBundle.with_percentiles vals ps =
        some ⟨g, ps.filterMap (fun p => Statistics.fromValues vals (some p))⟩ ∧
      ∀ p : ℕ, sliceIndex p vals.length = 0 →
        Statistics.fromValues vals (some p) = none := by
  have hlen : ¬ vals.length = 0 := by simpa [List.length_eq_zero] using h
  refine ⟨_, fromValues_eq_some vals none (by simpa [filteredOf] using h),
    ?_, ?_⟩
  · rw [StatisticsBundle.with_percentiles, if_neg hlen,
      fromValues_eq_some vals none (by simpa [filteredOf] using h)]
    rfl
  · intro p hp
    exact fromValues_eq_none vals (some p)
      (by simp [filteredOf, slice_values, hp])

/-- Witness for C7: series [1,2] with percentile list [50]; percentile 1
produces an empty slice and is omitted. -/
theorem claim_C7_witness :
    StatisticsBundle.with_percentiles [(1:ℚ), 2] [50] ≠ none ∧
    Statistics.fromValues [(1:ℚ), 2] (some 1) = none := by
  obtain ⟨g, h1, h2, h3⟩ := claim_C7 [(1:ℚ), 2] [50] (by simp)
  refine ⟨?_, h3 1 (by norm_num [sliceIndex])⟩
  rw [h2]
  exact Option.some_ne_none _

/-- C8: the computed minimum is at most the computed median, which is at
most the computed maximum, for every snapshot built from a non-empty
slice. -/
theorem claim_C8 (vals : List ℚ) (s : Statistics)
    (hs : Statistics.fromValues vals none = some s) :
    s.lower ≤ s.median ∧ s.median ≤ s.upper := by
  have hne : vals ≠ [] := by
    intro he
    rw [fromValues_eq_none vals none (by simp [filteredOf, he])] at hs
    cases hs
  have hf : filteredOf vals none = vals := rfl
  rw [fromValues_eq_some vals none (by simpa [hf] using hne)] at hs
  injection hs with hs
  subst hs
  simpa [hf] using compute_median_bounds vals hne

/-- Witness for C8 at the singleton slice [3]. -/
theorem claim_C8_witness :
    ((⟨none, 1, 3, 3, 3, 3, 3, compute_stddev [3] 3⟩ : Statistics)).lower ≤
      ((⟨none, 1, 3, 3, 3, 3, 3, compute_stddev [3] 3⟩ : Statistics)).median :=
  (claim_C8 [3] ⟨none, 1, 3, 3, 3, 3, 3, compute_stddev [3] 3⟩
    (by with_unfolding_all rfl)).1

/-- C10: the slicing index floor(p*N/100) never exceeds N when p ≤ 99, so
the range slice &vals[0..index] taken by slice_values is always in
bounds; the guarantee indeed depends on the bound on p, since for p > 100
the index can exceed the length. -/
theorem claim_C10 :
    (∀ (vals : List ℚ) (p : ℕ), p ≤ 99 →
      sliceIndex p vals.length ≤ vals.length ∧
      slice_values vals p = vals.take (sliceIndex p vals.length)) ∧
    (∃ p n : ℕ, 100 < p ∧ n < sliceIndex p n) := by
  constructor
  · intro vals p hp
    exact ⟨sliceIndex_le p vals.length hp, rfl⟩
  · exact ⟨101, 200, by norm_num, by norm_num [sliceIndex]⟩

/-- Witness for C10 at percentile 99 on a singleton list. -/
theorem claim_C10_witness :
    sliceIndex 99 ([(1:ℚ)]).length ≤ ([(1:ℚ)]).length :=
  (claim_C10.1 [(1:ℚ)] 99 (by norm_num)).1

/-- C2 counterexample: the source applies the f64 parser to each line as
written, with no whitespace trimming, so the line consisting of a space
followed by 4.5 is silently discarded, while the trimming behaviour the
claim describes would accept it. -/
theorem claim_C2_counterexample :
    get_values (Except.ok (" 4.5\n")) SortingPolicy.Unsorted =
      Except.ok [] ∧
    get_values_trimmed (Except.ok (" 4.5\n")) SortingPolicy.Unsorted =
      Except.ok [9 / 2] ∧
    (Except.ok ([] : List ℚ) : Except String (List ℚ)) ≠ Except.ok [9 / 2] := by
  refine ⟨by with_unfolding_all rfl, by with_unfolding_all rfl, ?_⟩
  simp

/-- C2 (amended): each line is parsed as a decimal number exactly as
written (no whitespace trimming); lines that fail to parse are silently
discarded by filterMap; the operation returns an error exactly when the
underlying read fails, and then produces no values. -/
theorem claim_C2 :
    (∀ (e : String) (sort : SortingPolicy),
      get_values (Except.error e) sort = Except.error e) ∧
    (∀ (buf : String) (sort : SortingPolicy),
      (get_values (Except.ok buf) sort).isOk = true) ∧
    (∀ buf : String,
      get_values (Except.ok buf) SortingPolicy.Unsorted =
        Except.ok ((rustLines buf).filterMap rustParseF64)) ∧
    (∀ buf : String,
      get_values (Except.ok buf) SortingPolicy.Sorted =
        Except.ok (sortFloats ((rustLines buf).filterMap rustParseF64))) := by
  refine ⟨fun e sort => rfl, fun buf sort => ?_, fun buf => rfl, fun buf => rfl⟩
  cases sort <;> rfl

/-- Witness for C2: an I/O failure is propagated unchanged. -/
theorem claim_C2_witness :
    get_values (Except.error ("read failure")) SortingPolicy.Sorted =
      Except.error ("read failure") :=
  claim_C2.1 ("read failure") SortingPolicy.Sorted

/-! ### The formatter -/

/-- The KeyValueSep enum of the source. -/
inductive KeyValueSep
  | Tab
  | Colon
  | Other (s : String)

/-- KeyValueSep::get_sep of the source. -/
def KeyValueSep.get_sep : KeyValueSep → String
  | .Tab => "\t"
  | .Colon => ": "
  | .Other s => s

/-- Round to the nearest integer, ties to even: the rounding applied by
the Rust fixed-precision float rendering to the scaled value. -/
def roundHE {α : Type} [LinearOrderedField α] [FloorRing α] (x : α) : ℤ :=
  let f := ⌊x⌋
  let frac := x - (f : α)
  if frac < 1 / 2 then f
  else if 1 / 2 < frac then f + 1
  else if f % 2 = 0 then f else f + 1

/-- The five fractional digits of a scaled value below 100000, zero
padded, most significant first. -/
def fiveDigits (n : ℕ) : String :=
  ⟨[Nat.digitChar (n / 10000 % 10), Nat.digitChar (n / 1000 % 10),
    Nat.digitChar (n / 100 % 10), Nat.digitChar (n / 10 % 10),
    Nat.digitChar (n % 10)]⟩

/-- Model of the Rust format specifier with precision DISPLAY_PRECISION
applied to a float: the value rounded to five fractional digits, rendered
as an optional sign, the integer part in decimal, a point, and exactly
five fractional digits.  Instantiated at the rationals for the exact
fields and at the reals for the standard deviation. -/
def fmtFixed5 {α : Type} [LinearOrderedField α] [FloorRing α] (x : α) : String :=
  let scaled := roundHE (x * 100000)
  let n := scaled.natAbs
  (if scaled < 0 then "-" else "") ++ Nat.repr (n / 100000) ++ "." ++
    fiveDigits (n % 100000)

/-- StatisticsFormatter::write_to_buf of the source: seven writeln calls
in the order count, sum, mean, upper, lower, median, stddev, with the key
suffixed by the percentile number when the percentile tag is present.
The count is a usize, and the Rust integer Display ignores the precision
of the format specifier, so the count is rendered as a plain integer;
the six float fields go through the five-digit fixed rendering. -/
noncomputable def write_to_buf (stats : Statistics) (sep : KeyValueSep) : String :=
  match stats.percentile with
  | some p =>
    "count_" ++ Nat.repr p ++ sep.get_sep ++ Nat.repr stats.count ++ "\n" ++
    ("sum_" ++ Nat.repr p ++ sep.get_sep ++ fmtFixed5 stats.sum ++ "\n" ++
    ("mean_" ++ Nat.repr p ++ sep.get_sep ++ fmtFixed5 stats.mean ++ "\n" ++
    ("upper_" ++ Nat.repr p ++ sep.get_sep ++ fmtFixed5 stats.upper ++ "\n" ++
    ("lower_" ++ Nat.repr p ++ sep.get_sep ++ fmtFixed5 stats.lower ++ "\n" ++
    ("median_" ++ Nat.repr p ++ sep.get_sep ++ fmtFixed5 stats.median ++ "\n" ++
    ("stddev_" ++ Nat.repr p ++ sep.get_sep ++ fmtFixed5 stats.stddev ++ "\n"))))))
  | none =>
    "count" ++ sep.get_sep ++ Nat.repr stats.count ++ "\n" ++
    ("sum" ++ sep.get_sep ++ fmtFixed5 stats.sum ++ "\n" ++
    ("mean" ++ sep.get_sep ++ fmtFixed5 stats.mean ++ "\n" ++
    ("upper" ++ sep.get_sep ++ fmtFixed5 stats.upper ++ "\n" ++
    ("lower" ++ sep.get_sep ++ fmtFixed5 stats.lower ++ "\n" ++
    ("median" ++ sep.get_sep ++ fmtFixed5 stats.median ++ "\n" ++
    ("stddev" ++ sep.get_sep ++ fmtFixed5 stats.stddev ++ "\n"))))))

/-- The Display implementation of StatisticsFormatter: the global entry
first, then every percentile entry in bundle order, all appended into one
buffer. -/
noncomputable def formatterOutput (bundle : StatisticsBundle) (sep : KeyValueSep) :
    String :=
  write_to_buf bundle.global sep ++
    String.join (bundle.percentiles.map (fun s => write_to_buf s sep))

/-- The seven key/value lines of one Statistics instance, in the fixed
field order of the specification, without the terminating newlines. -/
noncomputable def specStatLines (stats : Statistics) (sep : KeyValueSep) :
    List String :=
  match stats.percentile with
  | some p =>
    ["count_" ++ Nat.repr p ++ sep.get_sep ++ Nat.repr stats.count,
     "sum_" ++ Nat.repr p ++ sep.get_sep ++ fmtFixed5 stats.sum,
     "mean_" ++ Nat.repr p ++ sep.get_sep ++ fmtFixed5 stats.mean,
     "upper_" ++ Nat.repr p ++ sep.get_sep ++ fmtFixed5 stats.upper,
     "lower_" ++ Nat.repr p ++ sep.get_sep ++ fmtFixed5 stats.lower,
     "median_" ++ Nat.repr p ++ sep.get_sep ++ fmtFixed5 stats.median,
     "stddev_" ++ Nat.repr p ++ sep.get_sep ++ fmtFixed5 stats.stddev]
  | none =>
    ["count" ++ sep.get_sep ++ Nat.repr stats.count,
     "sum" ++ sep.get_sep ++ fmtFixed5 stats.sum,
     "mean" ++ sep.get_sep ++ fmtFixed5 stats.mean,
     "upper" ++ sep.get_sep ++ fmtFixed5 stats.upper,
     "lower" ++ sep.get_sep ++ fmtFixed5 stats.lower,
     "median" ++ sep.get_sep ++ fmtFixed5 stats.median,
     "stddev" ++ sep.get_sep ++ fmtFixed5 stats.stddev]

/-- Modelled from the spec: the rendering the claim describes, in which
every numeric field, the count included, is printed with exactly five
fractional digits.  The source renders the count as a plain integer; this
definition exists only to be compared with write_to_buf. -/
noncomputable def spec_write_all5 (stats : Statistics) (sep : KeyValueSep) :
    String :=
  match stats.percentile with
  | some p =>
    "count_" ++ Nat.repr p ++ sep.get_sep ++ fmtFixed5 ((stats.count : ℚ)) ++ "\n" ++
    ("sum_" ++ Nat.repr p ++ sep.get_sep ++ fmtFixed5 stats.sum ++ "\n" ++
    ("mean_" ++ Nat.repr p ++ sep.get_sep ++ fmtFixed5 stats.mean ++ "\n" ++
    ("upper_" ++ Nat.repr p ++ sep.get_sep ++ fmtFixed5 stats.upper ++ "\n" ++
    ("lower_" ++ Nat.repr p ++ sep.get_sep ++ fmtFixed5 stats.lower ++ "\n" ++
    ("median_" ++ Nat.repr p ++ sep.get_sep ++ fmtFixed5 stats.median ++ "\n" ++
    ("stddev_" ++ Nat.repr p ++ sep.get_sep ++ fmtFixed5 stats.stddev ++ "\n"))))))
  | none =>
    "count" ++ sep.get_sep ++ fmtFixed5 ((stats.count : ℚ)) ++ "\n" ++
    ("sum" ++ sep.get_sep ++ fmtFixed5 stats.sum ++ "\n" ++
    ("mean" ++ sep.get_sep ++ fmtFixed5 stats.mean ++ "\n" ++
    ("upper" ++ sep.get_sep ++ fmtFixed5 stats.upper ++ "\n" ++
    ("lower" ++ sep.get_sep ++ fmtFixed5 stats.lower ++ "\n" ++
    ("median" ++ sep.get_sep ++ fmtFixed5 stats.median ++ "\n" ++
    ("stddev" ++ sep.get_sep ++ fmtFixed5 stats.stddev ++ "\n"))))))

/-- The spec-modelled formatter output with five-digit counts. -/
noncomputable def specFormatterOutput5 (bundle : StatisticsBundle)
    (sep : KeyValueSep) : String :=
  spec_write_all5 bundle.global sep ++
    String.join (bundle.percentiles.map (fun s => spec_write_all5 s sep))

/-! ### Helper lemmas about strings and the formatter -/

theorem string_foldl_append (l : List String) (a : String) :
    l.foldl (fun r s => r ++ s) a = a ++ String.join l := by
  induction l generalizing a with
  | nil => simp [String.join, String.append_empty]
  | cons y t ih =>
    simp only [List.foldl_cons, String.join]
    rw [ih (a ++ y), ih (("" : String) ++ y), String.empty_append,
      String.append_assoc]

theorem string_join_cons (a : String) (l : List String) :
    String.join (a :: l) = a ++ String.join l := by
  have h : String.join (a :: l) = l.foldl (fun r s => r ++ s) (("" : String) ++ a) :=
    rfl
  rw [h, string_foldl_append, String.empty_append]

theorem string_join_nil : String.join [] = "" := rfl

/-- The seven newline-terminated lines of one Statistics instance joined
together are exactly what write_to_buf appends to the buffer. -/
theorem write_to_buf_eq_join (stats : Statistics) (sep : KeyValueSep) :
    write_to_buf stats sep =
      String.join ((specStatLines stats sep).map (fun ln => ln ++ "\n")) := by
  cases hp : stats.percentile <;>
    simp only [write_to_buf, specStatLines, hp, List.map_cons, List.map_nil,
      string_join_cons, string_join_nil, String.append_empty,
      String.append_assoc]

/-- Every rendering produced by fmtFixed5 ends in a point followed by
exactly five decimal digits. -/
theorem fmtFixed5_digits (q : ℚ) :
    ∃ pre ds : String, fmtFixed5 q = pre ++ "." ++ ds ∧ ds.length = 5 ∧
      ds.data.all Char.isDigit = true := by
  refine ⟨(if roundHE (q * 100000) < 0 then "-" else "") ++
    Nat.repr ((roundHE (q * 100000)).natAbs / 100000),
    fiveDigits ((roundHE (q * 100000)).natAbs % 100000), rfl, rfl, ?_⟩
  have h : ∀ m : ℕ, m < 10 → (Nat.digitChar m).isDigit = true := by decide
  have h10 : ∀ k : ℕ, k % 10 < 10 := fun k => Nat.mod_lt _ (by norm_num)
  simp [fiveDigits, List.all, h _ (h10 _)]

/-- Rounding ties to even commutes with the cast of a rational into the
reals. -/
theorem roundHE_ratCast (q : ℚ) : roundHE ((q : ℝ)) = roundHE q := by
  simp only [roundHE, Rat.floor_cast]
  have h1 : ((q : ℝ) - ((⌊q⌋ : ℤ) : ℝ) < 1 / 2) ↔
      (q - ((⌊q⌋ : ℤ) : ℚ) < 1 / 2) := by
    rw [show ((1 : ℝ) / 2) = (((1 : ℚ) / 2 : ℚ) : ℝ) by push_cast; ring]
    rw [show ((q : ℝ) - ((⌊q⌋ : ℤ) : ℝ)) = (((q - ((⌊q⌋ : ℤ) : ℚ) : ℚ)) : ℝ) by
      push_cast; ring]
    exact Rat.cast_lt
  have h2 : (1 / 2 < (q : ℝ) - ((⌊q⌋ : ℤ) : ℝ)) ↔
      (1 / 2 < q - ((⌊q⌋ : ℤ) : ℚ)) := by
    rw [show ((1 : ℝ) / 2) = (((1 : ℚ) / 2 : ℚ) : ℝ) by push_cast; ring]
    rw [show ((q : ℝ) - ((⌊q⌋ : ℤ) : ℝ)) = (((q - ((⌊q⌋ : ℤ) : ℚ) : ℚ)) : ℝ) by
      push_cast; ring]
    exact Rat.cast_lt
  simp only [h1, h2]

/-- The fixed-precision rendering agrees on a rational and on its cast
into the reals. -/
theorem fmtFixed5_ratCast (q : ℚ) : fmtFixed5 ((q : ℝ)) = fmtFixed5 q := by
  simp only [fmtFixed5]
  rw [show ((q : ℝ) * 100000) = (((q * 100000 : ℚ)) : ℝ) by push_cast; ring,
    roundHE_ratCast]

/-- C9 counterexample: on the bundle holding one global snapshot with
count 1 and all float fields 13 except a zero standard deviation, the
formatter renders the count line as count: 1, a plain integer with no
fractional digits, because the Rust integer Display ignores the precision
of the format specifier; the rendering the claim describes, with every
numeric field shown with five fractional digits, would print
count: 1.00000 instead, and the two outputs differ. -/
theorem claim_C9_counterexample :
    formatterOutput ⟨⟨none, 1, 13, 13, 13, 13, 13, ((0 : ℚ) : ℝ)⟩, []⟩
        KeyValueSep.Colon =
      "count: 1\nsum: 13.00000\nmean: 13.00000\nupper: 13.00000\nlower: 13.00000\nmedian: 13.00000\nstddev: 0.00000\n" ∧
    specFormatterOutput5 ⟨⟨none, 1, 13, 13, 13, 13, 13, ((0 : ℚ) : ℝ)⟩, []⟩
        KeyValueSep.Colon =
      "count: 1.00000\nsum: 13.00000\nmean: 13.00000\nupper: 13.00000\nlower: 13.00000\nmedian: 13.00000\nstddev: 0.00000\n" ∧
    ("count: 1\nsum: 13.00000\nmean: 13.00000\nupper: 13.00000\nlower: 13.00000\nmedian: 13.00000\nstddev: 0.00000\n" : String) ≠
      "count: 1.00000\nsum: 13.00000\nmean: 13.00000\nupper: 13.00000\nlower: 13.00000\nmedian: 13.00000\nstddev: 0.00000\n" := by
  refine ⟨?_, ?_, by decide⟩
  · simp only [formatterOutput, write_to_buf]
    rw [fmtFixed5_ratCast 0]
    with_unfolding_all rfl
  · simp only [specFormatterOutput5, spec_write_all5]
    rw [fmtFixed5_ratCast 0]
    with_unfolding_all rfl

/-- C9 (amended): the formatter emits, for each Statistics instance,
exactly 7 newline-terminated lines in the fixed order count, sum, mean,
upper, lower, median, stddev, global entry first then percentile entries
in bundle order, keys suffixed with the percentile number for percentile
entries and the key joined to the value by the configured separator; each
of the six float fields is rendered with exactly five fractional digits,
while the count, a usize whose Display ignores the precision, is rendered
as a plain integer. -/
theorem claim_C9 :
    (∀ (b : StatisticsBundle) (sep : KeyValueSep),
      formatterOutput b sep =
        String.join ((b.global :: b.percentiles).map
          (fun s => String.join
            ((specStatLines s sep).map (fun ln => ln ++ "\n"))))) ∧
    (∀ (stats : Statistics) (sep : KeyValueSep),
      (specStatLines stats sep).length = 7) ∧
    (∀ q : ℚ, ∃ pre ds : String,
      fmtFixed5 q = pre ++ "." ++ ds ∧ ds.length = 5 ∧
        ds.data.all Char.isDigit = true) := by
  refine ⟨?_, ?_, fmtFixed5_digits⟩
  · intro b sep
    simp only [formatterOutput, List.map_cons, string_join_cons,
      write_to_buf_eq_join]
  · intro stats sep
    cases hp : stats.percentile <;> simp [specStatLines, hp]

end Staccato
